import Mathlib

/-!
Shallow embedding of the FROST protocol driver of `meesign-crypto`
(`src/protocol/frost.rs` and `src/wasm_api.rs`).

Modelling conventions:
* Machine integers are natural numbers; `u16` casts are explicit `% 2 ^ 16`.
* A FROST `Identifier` is represented by the `u16` value it is built from.
  `Identifier::try_from` fails exactly on `0`; comparison of identifiers in
  the source compares field scalars, which for values in `[1, 65535]` agrees
  with numeric comparison, so identifiers are compared as naturals.
* Fallible Rust code returning `Result` becomes `Res`; a Rust `panic`
  (a failing `unwrap`, an out-of-bounds index, a `usize` underflow) is the
  distinguished outcome `Res.diverge`, which is not an error value.
* Opaque cryptographic values (secret packages, commitments, nonces, shares,
  signatures) are represented by naturals; the external FROST library calls
  (`dkg::part1/2/3`, `commit`, `sign`, `aggregate`) are out of scope of the
  repository and are modelled from the spec, as documented on each of them.
* Inbound bytes are modelled after decoding: a `ProtocolGroupInit` envelope,
  a `ProtocolInit` envelope, an unpacked batch of per-peer payloads, or
  undecodable bytes.  Outbound bytes are the list of per-recipient payloads.
* Rust error strings are modelled by the constructors of `PErr`; each
  constructor records the literal message of the source.
-/

namespace MeesignFrost

/-- Error values of the driver; each constructor corresponds to one literal
error message (or error source) in `frost.rs`. -/
inductive PErr where
  /-- the source string is "wrong protocol type" -/
  | wrongProtocol
  /-- the source string is "protocol not initialized" -/
  | notInitialized
  /-- the source string is "protocol already finished" -/
  | alreadyFinished
  /-- the source string is "participant index not included" -/
  | participantNotIncluded
  /-- a `prost` / `serde` decoding failure propagated with the try operator -/
  | decodeError
  /-- `Identifier::try_from` failure propagated with the try operator -/
  | invalidIdentifier
  /-- the FROST library rejected the threshold (fewer than 2 signers) -/
  | invalidThreshold
  /-- the FROST library rejected the number of parties -/
  | invalidParties
  /-- the FROST library rejected the index of this participant -/
  | indexOutOfRange
  /-- the FROST library received a wrong number of peer packages -/
  | incorrectPackageCount
deriving DecidableEq

/-- Outcome of a fallible driver operation: success, a returned error value,
or divergence (a Rust panic: failing `unwrap`, out-of-bounds index, `usize`
underflow).  A panic never returns, so it is distinct from every error. -/
inductive Res (α : Type) where
  | ok : α → Res α
  | err : PErr → Res α
  | diverge : Res α
deriving DecidableEq

/-- True exactly on `Res.ok`. -/
def Res.isOk {α : Type} : Res α → Bool
  | .ok _ => true
  | _ => false

/-- True exactly on `Res.err` (a panic is not a returned error). -/
def Res.isErr {α : Type} : Res α → Bool
  | .err _ => true
  | _ => false

/-- The `as u16` cast. -/
def u16 (n : Nat) : Nat := n % 65536

/-- `Identifier::try_from` on a `u16`: fails exactly on zero. -/
def idTryFrom (n : Nat) : Option Nat :=
  if n = 0 then none else some n

/-- The `protocol_type` wire tag of `ProtocolType::Frost` (a fixed integer;
its exact value is irrelevant, only equality with it is ever tested). -/
def frostTag : Nat := 2

/-- An inbound message, after decoding/unpacking:
`groupInit` is a decoded `ProtocolGroupInit`, `initMsg` a decoded
`ProtocolInit`, `batch` the result of `unpack` + `deserialize_vec`,
and `malformed` stands for bytes on which the expected decoder fails. -/
inductive PInput where
  | groupInit (ptype parties threshold index : Nat)
  | initMsg (ptype : Nat) (indices : List Nat) (data : List Nat)
  | batch (payloads : List Nat)
  | malformed
deriving DecidableEq

/-- `serialize_bcast`: one payload fanned out to `n` recipients. -/
def serialize_bcast (v : Nat) (n : Nat) : List Nat := List.replicate n v

/-- `serialize_uni`: one distinct payload per recipient. -/
def serialize_uni (vec : List Nat) : List Nat := vec

/-- `inflate`: replicate one raw payload `n` times. -/
def inflate (b : Nat) (n : Nat) : List Nat := List.replicate n b

/-- `pack`: frame the outbound payload vector (framing abstracted away). -/
def pack (msgs : List Nat) (t : Nat) : List Nat := msgs

/-- A `BTreeMap` is modelled as a key-sorted, duplicate-free association
list; `btreeInsert` is ordered insertion with replacement on equal keys. -/
def btreeInsert (p : Nat × Nat) : List (Nat × Nat) → List (Nat × Nat)
  | [] => [p]
  | q :: qs =>
    if p.1 < q.1 then p :: q :: qs
    else if p.1 = q.1 then p :: qs
    else q :: btreeInsert p qs

/-- `collect::<BTreeMap<_, _>>()` over a sequence of key-value pairs. -/
def btreeOfList (l : List (Nat × Nat)) : List (Nat × Nat) :=
  l.foldl (fun m q => btreeInsert q m) []

/-- `.enumerate().map(|(i, msg)| (f i, msg)).collect()` evaluated eagerly,
propagating a panic raised by `f` at the first offending position. -/
def zipIds (f : Nat → Res Nat) : Nat → List Nat → Res (List (Nat × Nat))
  | _, [] => .ok []
  | i, m :: ms =>
    match f i with
    | .ok k =>
      match zipIds f (i + 1) ms with
      | .ok rest => .ok ((k, m) :: rest)
      | .err e => .err e
      | .diverge => .diverge
    | .err e => .err e
    | .diverge => .diverge

/-- `sort_by_key(|(i, _)| *i)` modelled as insertion sort on the key. -/
def insertByKey (p : Nat × Nat) : List (Nat × Nat) → List (Nat × Nat)
  | [] => [p]
  | q :: qs => if p.1 ≤ q.1 then p :: q :: qs else q :: insertByKey p qs

/-- Sorting of an association list by key (model of `Vec::sort_by_key`). -/
def sortByKey : List (Nat × Nat) → List (Nat × Nat)
  | [] => []
  | p :: ps => insertByKey p (sortByKey ps)

/-- A DKG secret package (`round1::SecretPackage` / `round2::SecretPackage`):
carries this participant's identifier, the group size it was created for,
and an opaque blob for the remaining cryptographic content. -/
structure SecretPkg where
  identifier : Nat
  maxSigners : Nat
  blob : Nat
deriving DecidableEq

/-- Modelled from the spec: the round-1 public package emitted by
`dkg::part1` of the external FROST library (opaque to the driver). -/
def part1Pkg (identifier : Nat) : Nat := identifier + 1

/-- Modelled from the spec: `dkg::part1` of the external FROST library.
The spec requires `threshold ≥ 2`, `parties ≥ threshold` and
`1 ≤ index ≤ parties`; on success it returns the round-1 secret and public
packages. -/
def dkg_part1 (identifier parties threshold : Nat) :
    Res (SecretPkg × Nat) :=
  if threshold < 2 then .err .invalidThreshold
  else if parties < threshold then .err .invalidParties
  else if identifier < 1 ∨ parties < identifier then .err .indexOutOfRange
  else .ok (⟨identifier, parties, 0⟩, part1Pkg identifier)

/-- Modelled from the spec: the round-2 package `dkg::part2` addresses to
peer `recipient` (opaque; made injective in the recipient so that distinct
peers receive distinguishable packages). -/
def part2Pkg (identifier recipient : Nat) : Nat := Nat.pair identifier recipient

/-- Modelled from the spec: `dkg::part2` of the external FROST library.
It consumes the round-1 secret together with the map of the `P - 1` peer
round-1 packages (rejecting any other count) and emits the round-2 secret
plus one round-2 package per peer of the map. -/
def dkg_part2 (secret : SecretPkg) (round1 : List (Nat × Nat)) :
    Res (SecretPkg × List (Nat × Nat)) :=
  if round1.length ≠ secret.maxSigners - 1 then .err .incorrectPackageCount
  else .ok (⟨secret.identifier, secret.maxSigners, secret.blob + 1⟩,
            round1.map (fun p => (p.1, part2Pkg secret.identifier p.1)))

/-- Modelled from the spec: `dkg::part3` of the external FROST library,
producing the key package and the public key package. -/
def dkg_part3 (secret : SecretPkg) (round1 round2 : List (Nat × Nat)) :
    Res (Nat × Nat) :=
  if round2.length ≠ secret.maxSigners - 1 then .err .incorrectPackageCount
  else .ok (Nat.pair secret.identifier secret.blob, Nat.pair secret.maxSigners 0)

/-- Modelled from the spec: `pubkey.verifying_key()` serialized for the
final advisory broadcast. -/
def verifyingKey (pubkey : Nat) : Nat := pubkey + 1

/-- The round indicator of a DKG session (`KeygenRound`). -/
inductive KeygenRound where
  | R0
  | R1 (secret : SecretPkg)
  | R2 (secret : SecretPkg) (round1 : List (Nat × Nat))
  | Done (key : Nat) (pubkey : Nat)
deriving DecidableEq

/-- `KeygenContext::index_to_identifier`: the skip-self conversion from a
position in an inbound peer vector to a FROST identifier.  Both `unwrap`
calls of the source are modelled as divergence. -/
def index_to_identifier (index localId : Nat) : Res Nat :=
  match idTryFrom (u16 (index + 1)) with
  | none => .diverge
  | some v =>
    let index2 := if localId ≤ v then index + 2 else index + 1
    match idTryFrom (u16 index2) with
    | none => .diverge
    | some w => .ok w

/-- One step of the DKG state machine: `KeygenContext::init` for `R0`,
`KeygenContext::update` otherwise.  Returns the next round and the packed
outbound payload vector; on error the caller leaves the round unchanged
(the source mutates `self.round` only on the success path). -/
def keygenStep : KeygenRound → PInput → Res (KeygenRound × List Nat)
  | .R0, .groupInit ptype parties threshold index =>
    if ptype ≠ frostTag then .err .wrongProtocol
    else
      match idTryFrom (u16 index) with
      | none => .err .invalidIdentifier
      | some id =>
        match dkg_part1 id (u16 parties) (u16 threshold) with
        | .ok (secret, pub1) =>
          .ok (.R1 secret,
               pack (serialize_bcast pub1 (u16 parties - 1)) frostTag)
        | .err e => .err e
        | .diverge => .diverge
  | .R0, _ => .err .decodeError
  | .R1 secret, .batch payloads =>
    match zipIds (fun i => index_to_identifier i secret.identifier) 0 payloads with
    | .ok entries =>
      let round1 := btreeOfList entries
      match dkg_part2 secret round1 with
      | .ok (secret2, round2map) =>
        .ok (.R2 secret2 round1,
             pack (serialize_uni ((sortByKey round2map).map Prod.snd)) frostTag)
      | .err e => .err e
      | .diverge => .diverge
    | .err e => .err e
    | .diverge => .diverge
  | .R1 _, _ => .err .decodeError
  | .R2 secret round1, .batch payloads =>
    match zipIds (fun i => index_to_identifier i secret.identifier) 0 payloads with
    | .ok entries =>
      let round2 := btreeOfList entries
      match dkg_part3 secret round1 round2 with
      | .ok (key, pubkey) =>
        .ok (.Done key pubkey,
             pack (inflate (verifyingKey pubkey) round2.length) frostTag)
      | .err e => .err e
      | .diverge => .diverge
    | .err e => .err e
    | .diverge => .diverge
  | .R2 _ _, _ => .err .decodeError
  | .Done _ _, _ => .err .alreadyFinished

/-- `Protocol::advance` for `KeygenContext`: on success the round is
replaced, on error or panic the stored round is unchanged (the source
assigns `self.round` only after every fallible step has succeeded). -/
def keygenAdvance (r : KeygenRound) (input : PInput) :
    Res (List Nat) × KeygenRound :=
  match keygenStep r input with
  | .ok (r2, out) => (.ok out, r2)
  | .err e => (.err e, r)
  | .diverge => (.diverge, r)

/-- A `SigningPackage`: the commitments map bound to the message. -/
structure SigningPkg where
  commitments : List (Nat × Nat)
  msg : List Nat
deriving DecidableEq

/-- The round indicator of a sign session (`SignRound`). -/
inductive SignRound where
  | R0
  | R1 (nonces : Nat) (commitments : Nat)
  | R2 (pkg : SigningPkg) (share : Nat)
  | Done (sig : Nat)
deriving DecidableEq

/-- The state of a sign session (`SignContext`): the key package is
represented by its identifier, the public key package by an opaque value. -/
structure SignCtx where
  keyIdentifier : Nat
  pubkey : Nat
  message : Option (List Nat)
  indices : Option (List Nat)
  round : SignRound
deriving DecidableEq

/-- Modelled from the spec: `round1::commit` of the external FROST library
draws fresh single-use nonces and their commitments from the OS RNG; the
values are opaque and no claim depends on them, so they are fixed
placeholders here. -/
def commitNonces : Nat × Nat := (0, 1)

/-- Modelled from the spec: `round2::sign` of the external FROST library,
producing this participant's signature share. -/
def signShare (pkg : SigningPkg) (nonces keyId : Nat) : Res Nat :=
  .ok (Nat.pair keyId pkg.msg.length)

/-- Modelled from the spec: `aggregate` of the external FROST library,
verifying the shares and combining them into the final signature. -/
def aggregate (pkg : SigningPkg) (shares : List (Nat × Nat)) (pubkey : Nat) :
    Res Nat :=
  .ok (Nat.pair pkg.msg.length shares.length)

/-- `Iterator::position` inside `SignContext::local_index`: walks the list,
panicking (`unwrap`) on a zero entry reached before a match, and reporting
the position of the first entry equal to the key identifier. -/
def findPos (keyId : Nat) : List Nat → Nat → Res Nat
  | [], _ => .err .participantNotIncluded
  | x :: xs, k =>
    match idTryFrom x with
    | none => .diverge
    | some v => if v = keyId then .ok k else findPos keyId xs (k + 1)

/-- `SignContext::local_index`: position of this participant's identifier
within the stored signing subset. -/
def local_index (c : SignCtx) : Res Nat :=
  match c.indices with
  | none => .err .participantNotIncluded
  | some l => findPos c.keyIdentifier l 0

/-- The position within the stored `indices` list that the sign rounds read
for inbound vector position `i`: `i + 1` if `i ≥ local_index`, else `i`. -/
def signSlot (L i : Nat) : Nat := if L ≤ i then i + 1 else i

/-- The identifier the sign rounds assign to inbound vector position `i`:
`Identifier::try_from(indices[signSlot L i]).unwrap()`, panicking on an
out-of-bounds index or a zero entry. -/
def signEntryId (indices : List Nat) (L i : Nat) : Res Nat :=
  match indices.get? (signSlot L i) with
  | none => .diverge
  | some x =>
    match idTryFrom x with
    | none => .diverge
    | some v => .ok v

/-- One step of the sign state machine: `SignContext::init` for `R0`,
`SignContext::update` otherwise. -/
def signStep (c : SignCtx) (input : PInput) : Res (SignCtx × List Nat) :=
  match c.round, input with
  | .R0, .initMsg ptype idxs data =>
    if ptype ≠ frostTag then .err .wrongProtocol
    else
      let indices := idxs.map u16
      if indices.isEmpty then .diverge
      else
        .ok ({ c with
                 indices := some indices,
                 message := some data,
                 round := .R1 commitNonces.1 commitNonces.2 },
             pack (serialize_bcast commitNonces.2 (indices.length - 1)) frostTag)
  | .R0, _ => .err .decodeError
  | .R1 nonces commitments, .batch payloads =>
    match local_index c with
    | .ok L =>
      let idxList := c.indices.getD []
      match zipIds (fun i => signEntryId idxList L i) 0 payloads with
      | .ok entries =>
        let cmap := btreeInsert (c.keyIdentifier, commitments) (btreeOfList entries)
        match c.message with
        | none => .diverge
        | some m =>
          let pkg : SigningPkg := ⟨cmap, m⟩
          match signShare pkg nonces c.keyIdentifier with
          | .ok share =>
            .ok ({ c with round := .R2 pkg share },
                 pack (serialize_bcast share (idxList.length - 1)) frostTag)
          | .err e => .err e
          | .diverge => .diverge
      | .err e => .err e
      | .diverge => .diverge
    | .err e => .err e
    | .diverge => .diverge
  | .R1 _ _, _ => .err .decodeError
  | .R2 pkg share, .batch payloads =>
    match local_index c with
    | .ok L =>
      let idxList := c.indices.getD []
      match zipIds (fun i => signEntryId idxList L i) 0 payloads with
      | .ok entries =>
        let smap := btreeInsert (c.keyIdentifier, share) (btreeOfList entries)
        match aggregate pkg smap c.pubkey with
        | .ok sig =>
          .ok ({ c with round := .Done sig },
               pack (serialize_bcast sig (idxList.length - 1)) frostTag)
        | .err e => .err e
        | .diverge => .diverge
      | .err e => .err e
      | .diverge => .diverge
    | .err e => .err e
    | .diverge => .diverge
  | .R2 _ _, _ => .err .decodeError
  | .Done _, _ => .err .alreadyFinished

/-- `Protocol::advance` for `SignContext`. -/
def signAdvance (c : SignCtx) (input : PInput) : Res (List Nat) × SignCtx :=
  match signStep c input with
  | .ok (c2, out) => (.ok out, c2)
  | .err e => (.err e, c)
  | .diverge => (.diverge, c)

/-- A host-facing session (`wasm_api::Protocol`): the tagged sum of the two
session kinds, dispatched by the `typetag` discriminator of the snapshot
format (`frost_keygen` / `frost_sign`). -/
inductive Session where
  | keygen (r : KeygenRound)
  | sign (c : SignCtx)
deriving DecidableEq

/-- `Protocol::advance` dispatched through the session handle. -/
def sessionAdvance (s : Session) (input : PInput) : Res (List Nat) × Session :=
  match s with
  | .keygen r =>
    match keygenAdvance r input with
    | (res, r2) => (res, .keygen r2)
  | .sign c =>
    match signAdvance c input with
    | (res, c2) => (res, .sign c2)

/-- Encoding of a DKG secret package for snapshots. -/
def encodeSecret (s : SecretPkg) : Nat :=
  Nat.pair s.identifier (Nat.pair s.maxSigners s.blob)

/-- Decoding of a DKG secret package from a snapshot. -/
def decodeSecret (n : Nat) : SecretPkg :=
  ⟨n.unpair.1, n.unpair.2.unpair.1, n.unpair.2.unpair.2⟩

/-- Encoding of a DKG round indicator for snapshots. -/
def encodeKeygenRound : KeygenRound → Nat
  | .R0 => Nat.pair 0 0
  | .R1 s => Nat.pair 1 (encodeSecret s)
  | .R2 s m => Nat.pair 2 (Nat.pair (encodeSecret s) (Encodable.encode m))
  | .Done k p => Nat.pair 3 (Nat.pair k p)

/-- Decoding of a DKG round indicator from a snapshot. -/
def decodeKeygenRound (n : Nat) : Option KeygenRound :=
  if n.unpair.1 = 0 then some .R0
  else if n.unpair.1 = 1 then some (.R1 (decodeSecret n.unpair.2))
  else if n.unpair.1 = 2 then
    (Encodable.decode n.unpair.2.unpair.2).map
      (fun m => .R2 (decodeSecret n.unpair.2.unpair.1) m)
  else if n.unpair.1 = 3 then
    some (.Done n.unpair.2.unpair.1 n.unpair.2.unpair.2)
  else none

/-- Encoding of a signing package for snapshots. -/
def encodeSigningPkg (p : SigningPkg) : Nat :=
  Nat.pair (Encodable.encode p.commitments) (Encodable.encode p.msg)

/-- Decoding of a signing package from a snapshot. -/
def decodeSigningPkg (n : Nat) : Option SigningPkg :=
  match Encodable.decode n.unpair.1, Encodable.decode n.unpair.2 with
  | some c, some m => some ⟨c, m⟩
  | _, _ => none

/-- Encoding of a sign round indicator for snapshots. -/
def encodeSignRound : SignRound → Nat
  | .R0 => Nat.pair 0 0
  | .R1 a b => Nat.pair 1 (Nat.pair a b)
  | .R2 p s => Nat.pair 2 (Nat.pair (encodeSigningPkg p) s)
  | .Done s => Nat.pair 3 s

/-- Decoding of a sign round indicator from a snapshot. -/
def decodeSignRound (n : Nat) : Option SignRound :=
  if n.unpair.1 = 0 then some .R0
  else if n.unpair.1 = 1 then
    some (.R1 n.unpair.2.unpair.1 n.unpair.2.unpair.2)
  else if n.unpair.1 = 2 then
    (decodeSigningPkg n.unpair.2.unpair.1).map
      (fun p => .R2 p n.unpair.2.unpair.2)
  else if n.unpair.1 = 3 then some (.Done n.unpair.2)
  else none

/-- Encoding of a sign session state for snapshots. -/
def encodeSignCtx (c : SignCtx) : Nat :=
  Nat.pair c.keyIdentifier
    (Nat.pair c.pubkey
      (Nat.pair (Encodable.encode c.message)
        (Nat.pair (Encodable.encode c.indices) (encodeSignRound c.round))))

/-- Decoding of a sign session state from a snapshot. -/
def decodeSignCtx (n : Nat) : Option SignCtx :=
  match Encodable.decode n.unpair.2.unpair.2.unpair.1,
        Encodable.decode n.unpair.2.unpair.2.unpair.2.unpair.1,
        decodeSignRound n.unpair.2.unpair.2.unpair.2.unpair.2 with
  | some m, some i, some r =>
    some ⟨n.unpair.1, n.unpair.2.unpair.1, m, i, r⟩
  | _, _, _ => none

/-- Modelled from the spec: `Protocol::serialize` of `wasm_api.rs`.  The
serde-derived snapshot codec is not part of the repository sources; per the
spec a snapshot is an opaque byte string carrying an internal tag that
discriminates the session kind, followed by the full session state
(including the active round and its accumulated secrets).  The byte string
is modelled as a natural number. -/
def serialize (s : Session) : Nat :=
  match s with
  | .keygen r => Nat.pair 0 (encodeKeygenRound r)
  | .sign c => Nat.pair 1 (encodeSignCtx c)

/-- Modelled from the spec: `Protocol::deserialize` of `wasm_api.rs`,
restoring a session from a snapshot. -/
def deserialize (n : Nat) : Option Session :=
  if n.unpair.1 = 0 then (decodeKeygenRound n.unpair.2).map .keygen
  else if n.unpair.1 = 1 then (decodeSignCtx n.unpair.2).map .sign
  else none

theorem decodeSecret_encodeSecret (s : SecretPkg) :
    decodeSecret (encodeSecret s) = s := by
  cases s
  simp [encodeSecret, decodeSecret, Nat.unpair_pair]

theorem decodeKeygenRound_encodeKeygenRound (r : KeygenRound) :
    decodeKeygenRound (encodeKeygenRound r) = some r := by
  cases r <;>
    simp [encodeKeygenRound, decodeKeygenRound, Nat.unpair_pair,
      decodeSecret_encodeSecret, Encodable.encodek]

theorem decodeSigningPkg_encodeSigningPkg (p : SigningPkg) :
    decodeSigningPkg (encodeSigningPkg p) = some p := by
  cases p
  simp [encodeSigningPkg, decodeSigningPkg, Nat.unpair_pair, Encodable.encodek]

theorem decodeSignRound_encodeSignRound (r : SignRound) :
    decodeSignRound (encodeSignRound r) = some r := by
  cases r <;>
    simp [encodeSignRound, decodeSignRound, Nat.unpair_pair,
      decodeSigningPkg_encodeSigningPkg, Encodable.encodek]

theorem decodeSignCtx_encodeSignCtx (c : SignCtx) :
    decodeSignCtx (encodeSignCtx c) = some c := by
  cases c
  simp [encodeSignCtx, decodeSignCtx, Nat.unpair_pair,
    decodeSignRound_encodeSignRound, Encodable.encodek]

theorem deserialize_serialize (s : Session) :
    deserialize (serialize s) = some s := by
  cases s with
  | keygen r =>
    simp [serialize, deserialize, Nat.unpair_pair,
      decodeKeygenRound_encodeKeygenRound]
  | sign c =>
    simp [serialize, deserialize, Nat.unpair_pair,
      decodeSignCtx_encodeSignCtx]

/-- The global index assigned by the skip-self rule to inbound vector
position `i` when the local slot is `L`: `i + 2` for `i ≥ L`, `i + 1`
otherwise. -/
def peerIdent (L i : Nat) : Nat := if L ≤ i then i + 2 else i + 1

theorem peerIdent_mono (L : Nat) :
    ∀ a b : Nat, a < b → peerIdent L a < peerIdent L b := by
  intro a b hab
  unfold peerIdent
  split_ifs <;> omega

theorem index_to_identifier_spec (i L : Nat) (h : i + 2 ≤ 65535) :
    index_to_identifier i (L + 1) = Res.ok (peerIdent L i) := by
  have h1 : u16 (i + 1) = i + 1 := Nat.mod_eq_of_lt (by omega)
  have h2 : u16 (i + 2) = i + 2 := Nat.mod_eq_of_lt (by omega)
  by_cases hc : L ≤ i
  · simp [index_to_identifier, idTryFrom, peerIdent, h1, h2, hc]
  · simp [index_to_identifier, idTryFrom, peerIdent, h1, h2, hc]

theorem signEntryId_spec (indices : List Nat) (L i : Nat)
    (hlen : signSlot L i < indices.length)
    (hnz : indices.get ⟨signSlot L i, hlen⟩ ≠ 0) :
    signEntryId indices L i = Res.ok (indices.get ⟨signSlot L i, hlen⟩) := by
  unfold signEntryId
  rw [List.get?_eq_get hlen]
  have hnz2 : indices[signSlot L i] ≠ 0 := by
    simpa [List.get_eq_getElem] using hnz
  simp [idTryFrom, hnz2]

/-- Reference shape of the association list built by the enumerate-map of
the source: position `j` of `ms` is paired with key `g (i + j)`. -/
def zipIdsSpec (g : Nat → Nat) : Nat → List Nat → List (Nat × Nat)
  | _, [] => []
  | i, m :: ms => (g i, m) :: zipIdsSpec g (i + 1) ms

theorem zipIds_ok (f : Nat → Res Nat) (g : Nat → Nat) :
    ∀ (ms : List Nat) (i : Nat),
      (∀ j, j < ms.length → f (i + j) = Res.ok (g (i + j))) →
      zipIds f i ms = Res.ok (zipIdsSpec g i ms) := by
  intro ms
  induction ms with
  | nil => intro i _; rfl
  | cons m ms ih =>
    intro i h
    have h0 : f i = Res.ok (g i) := by
      have := h 0 (by simp)
      simpa using this
    have hrest : zipIds f (i + 1) ms = Res.ok (zipIdsSpec g (i + 1) ms) := by
      apply ih
      intro j hj
      have := h (j + 1) (by simp; omega)
      have harith : i + (j + 1) = i + 1 + j := by omega
      rw [harith] at this
      exact this
    simp [zipIds, zipIdsSpec, h0, hrest]

theorem zipIdsSpec_length (g : Nat → Nat) :
    ∀ (ms : List Nat) (i : Nat), (zipIdsSpec g i ms).length = ms.length := by
  intro ms
  induction ms with
  | nil => intro i; rfl
  | cons m ms ih => intro i; simp [zipIdsSpec, ih]

theorem zipIdsSpec_mem (g : Nat → Nat) :
    ∀ (ms : List Nat) (i : Nat) (q : Nat × Nat),
      q ∈ zipIdsSpec g i ms → ∃ j, i ≤ j ∧ q.1 = g j := by
  intro ms
  induction ms with
  | nil => intro i q hq; simp [zipIdsSpec] at hq
  | cons m ms ih =>
    intro i q hq
    simp only [zipIdsSpec, List.mem_cons] at hq
    rcases hq with hq | hq
    · exact ⟨i, le_refl i, by rw [hq]⟩
    · obtain ⟨j, hj1, hj2⟩ := ih (i + 1) q hq
      exact ⟨j, by omega, hj2⟩

theorem zipIdsSpec_pairwise (g : Nat → Nat)
    (hg : ∀ a b : Nat, a < b → g a < g b) :
    ∀ (ms : List Nat) (i : Nat),
      List.Pairwise (fun p q : Nat × Nat => p.1 < q.1) (zipIdsSpec g i ms) := by
  intro ms
  induction ms with
  | nil => intro i; exact List.Pairwise.nil
  | cons m ms ih =>
    intro i
    refine List.Pairwise.cons ?_ (ih (i + 1))
    intro q hq
    obtain ⟨j, hj1, hj2⟩ := zipIdsSpec_mem g ms (i + 1) q hq
    simp only [hj2]
    exact hg i j (by omega)

theorem zipIdsSpec_map_key (F g : Nat → Nat) :
    ∀ (ms : List Nat) (i : Nat),
      (zipIdsSpec g i ms).map (fun p => F p.1)
        = (List.range ms.length).map (fun j => F (g (i + j))) := by
  intro ms
  induction ms with
  | nil => intro i; rfl
  | cons m ms ih =>
    intro i
    simp only [zipIdsSpec, List.map_cons, List.length_cons,
      List.range_succ_eq_map, List.map_map]
    rw [ih (i + 1), Nat.add_zero]
    congr 1
    apply List.map_congr_left
    intro j _
    simp only [Function.comp_apply]
    congr 1
    congr 1
    omega

theorem btreeInsert_of_lt (p : Nat × Nat) :
    ∀ l : List (Nat × Nat), (∀ q ∈ l, q.1 < p.1) →
      btreeInsert p l = l ++ [p] := by
  intro l
  induction l with
  | nil => intro _; rfl
  | cons q qs ih =>
    intro h
    have hq : q.1 < p.1 := h q (by simp)
    unfold btreeInsert
    rw [if_neg (by omega), if_neg (by omega), ih (fun r hr => h r (by simp [hr]))]
    rfl

theorem btreeOfList_of_pairwise :
    ∀ l : List (Nat × Nat),
      List.Pairwise (fun p q : Nat × Nat => p.1 < q.1) l →
      btreeOfList l = l := by
  intro l
  induction l using List.reverseRecOn with
  | nil => intro _; rfl
  | append_singleton l p ih =>
    intro h
    rw [List.pairwise_append] at h
    obtain ⟨h1, _, h3⟩ := h
    have : btreeOfList (l ++ [p]) = btreeInsert p (btreeOfList l) := by
      unfold btreeOfList
      rw [List.foldl_append]
      rfl
    rw [this, ih h1]
    exact btreeInsert_of_lt p l (fun q hq => h3 q hq p (by simp))

theorem insertByKey_of_le (p : Nat × Nat) :
    ∀ l : List (Nat × Nat), (∀ q ∈ l, p.1 ≤ q.1) →
      insertByKey p l = p :: l := by
  intro l h
  cases l with
  | nil => rfl
  | cons q qs =>
    unfold insertByKey
    rw [if_pos (h q (by simp))]

theorem sortByKey_of_pairwise :
    ∀ l : List (Nat × Nat),
      List.Pairwise (fun p q : Nat × Nat => p.1 ≤ q.1) l →
      sortByKey l = l := by
  intro l
  induction l with
  | nil => intro _; rfl
  | cons p ps ih =>
    intro h
    rw [List.pairwise_cons] at h
    obtain ⟨h1, h2⟩ := h
    unfold sortByKey
    rw [ih h2]
    exact insertByKey_of_le p ps h1

theorem findPos_not_mem (k : Nat) :
    ∀ (l : List Nat) (start : Nat), (∀ x ∈ l, x ≠ 0) → k ∉ l →
      findPos k l start = Res.err PErr.participantNotIncluded := by
  intro l
  induction l with
  | nil => intro start _ _; rfl
  | cons x xs ih =>
    intro start hnz hmem
    have hx : x ≠ 0 := hnz x (by simp)
    have hxk : x ≠ k := fun he => hmem (by simp [he])
    have hrest : findPos k xs (start + 1) = Res.err PErr.participantNotIncluded :=
      ih (start + 1) (fun y hy => hnz y (by simp [hy]))
        (fun hy => hmem (by simp [hy]))
    simp [findPos, idTryFrom, hx, hxk, hrest]

theorem dkg_part1_isErr (id parties threshold : Nat)
    (h : threshold < 2 ∨ parties < threshold ∨ id < 1 ∨ parties < id) :
    ∃ e, dkg_part1 id parties threshold = Res.err e := by
  unfold dkg_part1
  split_ifs with h1 h2 h3
  · exact ⟨_, rfl⟩
  · exact ⟨_, rfl⟩
  · exact ⟨_, rfl⟩
  · omega

/-- Claim C1: for every inbound peer-vector position `i` and a local
participant with local slot `L` (global index `L + 1`), the assigned
identifier follows the skip-self rule.  The DKG construction
(`index_to_identifier`) yields the identifier of global index `i + 2` when
`i ≥ L` and `i + 1` otherwise; the sign-round construction reads
`indices[i + 1]` when `i ≥ local_index` and `indices[i]` otherwise; over
the full ascending group list `[1, ..., P]` both produce the same value. -/
theorem frost_C1 (i L : Nat) (indices : List Nat)
    (hbound : i + 2 ≤ 65535)
    (hlen : signSlot L i < indices.length)
    (hnz : indices.get ⟨signSlot L i, hlen⟩ ≠ 0) :
    index_to_identifier i (L + 1) = Res.ok (if L ≤ i then i + 2 else i + 1)
    ∧ signEntryId indices L i = Res.ok (indices.get ⟨signSlot L i, hlen⟩)
    ∧ ∀ P : Nat, signSlot L i < P →
        signEntryId ((List.range P).map (fun g => g + 1)) L i
          = Res.ok (if L ≤ i then i + 2 else i + 1) := by
  refine ⟨?_, signEntryId_spec indices L i hlen hnz, ?_⟩
  · have h := index_to_identifier_spec i L hbound
    rw [h]
    unfold peerIdent
    rfl
  · intro P hP
    have hlen2 : signSlot L i < ((List.range P).map (fun g => g + 1)).length := by
      simpa using hP
    have hval : ((List.range P).map (fun g => g + 1)).get ⟨signSlot L i, hlen2⟩
        = signSlot L i + 1 := by
      simp
    have hnz2 : ((List.range P).map (fun g => g + 1)).get ⟨signSlot L i, hlen2⟩ ≠ 0 := by
      rw [hval]; omega
    rw [signEntryId_spec _ L i hlen2 hnz2, hval]
    unfold signSlot
    split_ifs <;> rfl

/-- Claim C2, counterexample: a sign session at `R0` whose `Init` envelope
lists a subset that omits this participant's identifier succeeds on the
first `advance` (it commits and leaves `R0`), contradicting the claim that
the first `advance` already fails with the participant-not-included
error. -/
theorem frost_C2_cex :
    ((signAdvance ⟨1, 0, none, none, SignRound.R0⟩
        (PInput.initMsg frostTag [2, 3] [7])).1).isOk = true
    ∧ ((signAdvance ⟨1, 0, none, none, SignRound.R0⟩
        (PInput.initMsg frostTag [2, 3] [7])).2).round
      = SignRound.R1 commitNonces.1 commitNonces.2 := by decide

/-- Claim C2, amended: when the `Init` subset omits this participant (all
entries nonzero so no panic intervenes), the first `advance` succeeds and
broadcasts commitments, and the participant-not-included error is returned
by the second `advance`, at round `R1`. -/
theorem frost_C2_amended (kid pk : Nat) (m0 i0 : Option (List Nat))
    (idxs data payloads : List Nat)
    (hne : idxs ≠ [])
    (hnz : ∀ x ∈ idxs, u16 x ≠ 0)
    (hmem : kid ∉ idxs.map u16) :
    ((signAdvance ⟨kid, pk, m0, i0, SignRound.R0⟩
        (PInput.initMsg frostTag idxs data)).1).isOk = true
    ∧ (signAdvance
        ((signAdvance ⟨kid, pk, m0, i0, SignRound.R0⟩
            (PInput.initMsg frostTag idxs data)).2)
        (PInput.batch payloads)).1
      = Res.err PErr.participantNotIncluded := by
  have hempty : (idxs.map u16).isEmpty = false := by
    cases idxs with
    | nil => exact absurd rfl hne
    | cons a l => rfl
  have hadv1 : signAdvance ⟨kid, pk, m0, i0, SignRound.R0⟩
      (PInput.initMsg frostTag idxs data)
      = (Res.ok (pack (serialize_bcast commitNonces.2
            ((idxs.map u16).length - 1)) frostTag),
         ⟨kid, pk, some data, some (idxs.map u16),
          SignRound.R1 commitNonces.1 commitNonces.2⟩) := by
    simp [signAdvance, signStep, hempty]
  have hnz2 : ∀ y ∈ idxs.map u16, y ≠ 0 := by
    intro y hy
    obtain ⟨x, hx, rfl⟩ := List.mem_map.mp hy
    exact hnz x hx
  have hlocal : findPos kid (idxs.map u16) 0 = Res.err PErr.participantNotIncluded :=
    findPos_not_mem kid (idxs.map u16) 0 hnz2 hmem
  refine ⟨by rw [hadv1]; rfl, ?_⟩
  rw [hadv1]
  simp [signAdvance, signStep, local_index, hlocal]

/-- Claim C3: at DKG round `R0`, `advance` rejects with an error — leaving
the session in `R0` and producing no outbound messages — any `GroupInit`
with a mismatched protocol kind, a threshold below 2, fewer parties than
the threshold, or an index outside `[1, parties]` (field values read as the
`u16` range the driver converts them to). -/
theorem frost_C3 (pt parties threshold index : Nat)
    (hp : parties < 65536) (ht : threshold < 65536) (hi : index < 65536)
    (hbad : pt ≠ frostTag ∨ threshold < 2 ∨ parties < threshold
            ∨ index < 1 ∨ parties < index) :
    ((keygenAdvance KeygenRound.R0
        (PInput.groupInit pt parties threshold index)).1).isErr = true
    ∧ (keygenAdvance KeygenRound.R0
        (PInput.groupInit pt parties threshold index)).2 = KeygenRound.R0 := by
  have hup : u16 parties = parties := Nat.mod_eq_of_lt hp
  have hut : u16 threshold = threshold := Nat.mod_eq_of_lt ht
  have hui : u16 index = index := Nat.mod_eq_of_lt hi
  by_cases hpt : pt = frostTag
  · subst hpt
    have hbad2 : threshold < 2 ∨ parties < threshold ∨ index < 1 ∨ parties < index := by
      rcases hbad with h | h
      · exact absurd rfl h
      · exact h
    by_cases hz : index = 0
    · subst hz
      constructor <;> simp [keygenAdvance, keygenStep, idTryFrom, u16, Res.isErr]
    · have hidf : idTryFrom (u16 index) = some index := by
        simp [idTryFrom, hui, hz]
      obtain ⟨e, he⟩ := dkg_part1_isErr index parties threshold hbad2
      constructor <;>
        simp [keygenAdvance, keygenStep, hidf, hup, hut, he, Res.isErr]
  · constructor <;> simp [keygenAdvance, keygenStep, hpt, Res.isErr]

/-- Claim C4, counterexample: a DKG session at `R0` fed a wrong-protocol
`GroupInit` returns an error, yet the very next `advance` with a valid
`GroupInit` succeeds — so it is not the case that every `advance` after an
error also returns an error. -/
theorem frost_C4_cex :
    ((keygenAdvance KeygenRound.R0 (PInput.groupInit 0 3 2 1)).1).isErr = true
    ∧ ((keygenAdvance
        ((keygenAdvance KeygenRound.R0 (PInput.groupInit 0 3 2 1)).2)
        (PInput.groupInit frostTag 3 2 1)).1).isOk = true := by decide

/-- Claim C4, amended: an `advance` that returns an error leaves the
session state unchanged — the failed call has no effect, and a subsequent
`advance` behaves exactly as on the original state (errors are not
latched; the same round can be retried with valid input). -/
theorem frost_C4_amended (r : KeygenRound) (c : SignCtx) (input input2 : PInput)
    (hk : ((keygenAdvance r input).1).isErr = true)
    (hs : ((signAdvance c input).1).isErr = true) :
    (keygenAdvance r input).2 = r
    ∧ (signAdvance c input).2 = c
    ∧ keygenAdvance ((keygenAdvance r input).2) input2 = keygenAdvance r input2
    ∧ signAdvance ((signAdvance c input).2) input2 = signAdvance c input2 := by
  have h1 : (keygenAdvance r input).2 = r := by
    unfold keygenAdvance at hk ⊢
    cases hks : keygenStep r input with
    | ok v =>
      obtain ⟨r2, out⟩ := v
      rw [hks] at hk
      simp [Res.isErr] at hk
    | err e => rfl
    | diverge => rfl
  have h2 : (signAdvance c input).2 = c := by
    unfold signAdvance at hs ⊢
    cases hss : signStep c input with
    | ok v =>
      obtain ⟨c2, out⟩ := v
      rw [hss] at hs
      simp [Res.isErr] at hs
    | err e => rfl
    | diverge => rfl
  exact ⟨h1, h2, by rw [h1], by rw [h2]⟩

/-- Claim C5: a sign session whose stored signing subset contains the entry
`0` panics — the failing `unwrap` on `Identifier::try_from`, modelled as
divergence — while `advance` builds identifiers for a round-1 batch,
instead of returning a typed error. -/
theorem frost_C5 :
    (signAdvance ⟨2, 0, some [5], some [0, 2, 3], SignRound.R1 0 1⟩
        (PInput.batch [9, 9])).1 = Res.diverge
    ∧ ((signAdvance ⟨2, 0, some [5], some [0, 2, 3], SignRound.R1 0 1⟩
        (PInput.batch [9, 9])).1).isErr = false := by decide

/-- Claim C6: a sign session in `R1` with a stored signing subset of size
2 fed a batch of 2 payloads (more than `t' - 1 = 1`) indexes past the end
of the stored indices list (`indices[i + 1]` with `i + 1 ≥ t'`), a panic
modelled as divergence; the same session fed the valid batch size
succeeds, so the batch length is not validated beforehand. -/
theorem frost_C6 :
    (signAdvance ⟨1, 0, some [5], some [1, 2], SignRound.R1 0 1⟩
        (PInput.batch [9, 9])).1 = Res.diverge
    ∧ ((signAdvance ⟨1, 0, some [5], some [1, 2], SignRound.R1 0 1⟩
        (PInput.batch [9])).1).isOk = true := by decide

/-- Claim C7: restoring a serialized session yields a session behaviorally
indistinguishable from the original: advancing the restored session on any
input gives the same result as advancing the original. -/
theorem frost_C7 (s : Session) (input : PInput) :
    Option.map (fun s2 => sessionAdvance s2 input) (deserialize (serialize s))
      = some (sessionAdvance s input) := by
  rw [deserialize_serialize]
  rfl

/-- Claim C9: once a session is `Done`, every further `advance` — with any
input — fails with the already-finished error and leaves the stored final
artifact unchanged, for the DKG and the sign machine alike. -/
theorem frost_C9 (k p sig kid pk : Nat) (m0 i0 : Option (List Nat))
    (input : PInput) :
    keygenAdvance (KeygenRound.Done k p) input
      = (Res.err PErr.alreadyFinished, KeygenRound.Done k p)
    ∧ signAdvance ⟨kid, pk, m0, i0, SignRound.Done sig⟩ input
      = (Res.err PErr.alreadyFinished, ⟨kid, pk, m0, i0, SignRound.Done sig⟩) := by
  refine ⟨?_, ?_⟩ <;> cases input <;> rfl

/-- Claim C10: an init envelope whose protocol-kind discriminator differs
from the FROST tag makes `advance` fail with the wrong-protocol error and
the session stays in `R0`, for both the DKG `GroupInit` and the sign
`Init`. -/
theorem frost_C10 (pt parties threshold index kid pk : Nat)
    (idxs data : List Nat) (m0 i0 : Option (List Nat))
    (h : pt ≠ frostTag) :
    keygenAdvance KeygenRound.R0 (PInput.groupInit pt parties threshold index)
      = (Res.err PErr.wrongProtocol, KeygenRound.R0)
    ∧ signAdvance ⟨kid, pk, m0, i0, SignRound.R0⟩ (PInput.initMsg pt idxs data)
      = (Res.err PErr.wrongProtocol, ⟨kid, pk, m0, i0, SignRound.R0⟩) := by
  constructor
  · simp [keygenAdvance, keygenStep, h]
  · simp [signAdvance, signStep, h]

theorem frost_C1_witness :
    index_to_identifier 1 1 = Res.ok 3
    ∧ signEntryId [3, 5, 7] 0 1 = Res.ok 7 := by
  have h := frost_C1 1 0 [3, 5, 7] (by decide) (by decide) (by decide)
  exact ⟨h.1, h.2.1⟩

theorem frost_C2_witness :
    ((signAdvance ⟨1, 0, none, none, SignRound.R0⟩
        (PInput.initMsg frostTag [2, 3] [7])).1).isOk = true
    ∧ (signAdvance
        ((signAdvance ⟨1, 0, none, none, SignRound.R0⟩
            (PInput.initMsg frostTag [2, 3] [7])).2)
        (PInput.batch [9])).1
      = Res.err PErr.participantNotIncluded :=
  frost_C2_amended 1 0 none none [2, 3] [7] [9]
    (by decide) (by decide) (by decide)

theorem frost_C3_witness :
    ((keygenAdvance KeygenRound.R0
        (PInput.groupInit frostTag 3 1 1)).1).isErr = true
    ∧ (keygenAdvance KeygenRound.R0
        (PInput.groupInit frostTag 3 1 1)).2 = KeygenRound.R0 :=
  frost_C3 frostTag 3 1 1 (by decide) (by decide) (by decide) (by decide)

theorem frost_C4_witness :
    (keygenAdvance KeygenRound.R0 PInput.malformed).2 = KeygenRound.R0
    ∧ (signAdvance ⟨1, 0, none, none, SignRound.R0⟩ PInput.malformed).2
      = ⟨1, 0, none, none, SignRound.R0⟩
    ∧ keygenAdvance ((keygenAdvance KeygenRound.R0 PInput.malformed).2)
        PInput.malformed
      = keygenAdvance KeygenRound.R0 PInput.malformed
    ∧ signAdvance
        ((signAdvance ⟨1, 0, none, none, SignRound.R0⟩ PInput.malformed).2)
        PInput.malformed
      = signAdvance ⟨1, 0, none, none, SignRound.R0⟩ PInput.malformed :=
  frost_C4_amended KeygenRound.R0 ⟨1, 0, none, none, SignRound.R0⟩
    PInput.malformed PInput.malformed (by decide) (by decide)

theorem frost_C10_witness :
    keygenAdvance KeygenRound.R0 (PInput.groupInit 0 3 2 1)
      = (Res.err PErr.wrongProtocol, KeygenRound.R0)
    ∧ signAdvance ⟨1, 0, none, none, SignRound.R0⟩
        (PInput.initMsg 0 [1, 2] [5])
      = (Res.err PErr.wrongProtocol, ⟨1, 0, none, none, SignRound.R0⟩) :=
  frost_C10 0 3 2 1 1 0 [1, 2] [5] none none (by decide)

/-- Claim C8: a DKG session stepping from `R1` to `R2` emits as outbound
unicast vector the round-2 map sorted by recipient identifier ascending
with the identifiers stripped: with local slot `L` (identifier `L + 1`)
and group size `P`, the `j`-th entry is the round-2 package addressed to
the `j`-th peer in identifier-sorted order (`peerIdent L j`), the
recipient identifiers are strictly increasing, range over the peers
`[1, P]` minus self, and the vector has exactly `P - 1` entries. -/
theorem frost_C8 (L P blob : Nat) (payloads : List Nat)
    (hlen : payloads.length = P - 1) (hP : P ≤ 65535) :
    (keygenAdvance (KeygenRound.R1 ⟨L + 1, P, blob⟩) (PInput.batch payloads)).1
      = Res.ok ((List.range (P - 1)).map
          (fun j => part2Pkg (L + 1) (peerIdent L j)))
    ∧ ((List.range (P - 1)).map
          (fun j => part2Pkg (L + 1) (peerIdent L j))).length = P - 1
    ∧ (∀ a b : Nat, a < b → peerIdent L a < peerIdent L b)
    ∧ (L + 1 ≤ P → ∀ j, j < P - 1 →
        1 ≤ peerIdent L j ∧ peerIdent L j ≤ P ∧ peerIdent L j ≠ L + 1) := by
  have hzip : zipIds (fun i => index_to_identifier i (L + 1)) 0 payloads
      = Res.ok (zipIdsSpec (peerIdent L) 0 payloads) := by
    apply zipIds_ok
    intro j hj
    simp only [Nat.zero_add]
    exact index_to_identifier_spec j L (by omega)
  have hpair : List.Pairwise (fun p q : Nat × Nat => p.1 < q.1)
      (zipIdsSpec (peerIdent L) 0 payloads) :=
    zipIdsSpec_pairwise (peerIdent L) (peerIdent_mono L) payloads 0
  have hbt : btreeOfList (zipIdsSpec (peerIdent L) 0 payloads)
      = zipIdsSpec (peerIdent L) 0 payloads :=
    btreeOfList_of_pairwise _ hpair
  have hlen2 : (zipIdsSpec (peerIdent L) 0 payloads).length = P - 1 := by
    rw [zipIdsSpec_length]
    exact hlen
  have hpart2 : dkg_part2 ⟨L + 1, P, blob⟩ (zipIdsSpec (peerIdent L) 0 payloads)
      = Res.ok (⟨L + 1, P, blob + 1⟩,
          (zipIdsSpec (peerIdent L) 0 payloads).map
            (fun p => (p.1, part2Pkg (L + 1) p.1))) := by
    unfold dkg_part2
    rw [if_neg (by simp [hlen2])]
  have hpair2 : List.Pairwise (fun p q : Nat × Nat => p.1 < q.1)
      ((zipIdsSpec (peerIdent L) 0 payloads).map
        (fun p => (p.1, part2Pkg (L + 1) p.1))) := by
    rw [List.pairwise_map]
    exact hpair
  have hsort : sortByKey ((zipIdsSpec (peerIdent L) 0 payloads).map
        (fun p => (p.1, part2Pkg (L + 1) p.1)))
      = (zipIdsSpec (peerIdent L) 0 payloads).map
          (fun p => (p.1, part2Pkg (L + 1) p.1)) :=
    sortByKey_of_pairwise _ (hpair2.imp le_of_lt)
  have hout : ((zipIdsSpec (peerIdent L) 0 payloads).map
        (fun p => (p.1, part2Pkg (L + 1) p.1))).map Prod.snd
      = (List.range (P - 1)).map (fun j => part2Pkg (L + 1) (peerIdent L j)) := by
    rw [List.map_map]
    have : (Prod.snd ∘ fun p : Nat × Nat => (p.1, part2Pkg (L + 1) p.1))
        = fun p : Nat × Nat => part2Pkg (L + 1) p.1 := rfl
    rw [this, zipIdsSpec_map_key (part2Pkg (L + 1)) (peerIdent L) payloads 0, hlen]
    apply List.map_congr_left
    intro j _
    rw [Nat.zero_add]
  refine ⟨?_, by simp, peerIdent_mono L, ?_⟩
  · simp only [keygenAdvance, keygenStep]
    rw [hzip]
    simp only [hbt, hpart2, pack, serialize_uni, hsort, hout]
  · intro hLP j hj
    unfold peerIdent
    split_ifs <;> omega

theorem frost_C8_witness :
    (keygenAdvance (KeygenRound.R1 ⟨1, 2, 0⟩) (PInput.batch [5])).1
      = Res.ok ((List.range 1).map (fun j => part2Pkg 1 (peerIdent 0 j))) :=
  (frost_C8 0 2 0 [5] (by decide) (by decide)).1

end MeesignFrost
